import Mathlib

/-!
Verification development for the tenama temporary-namespace controller.

The definitions below are shallow embeddings of the Go source in this
repository. Kubernetes resource quantities (k8s resource.Quantity) are
arbitrary-precision signed decimals of which the watcher uses only Add,
Sub, Sign, IsZero, Cmp and DeepCopy; they are modelled as Int. A
v1.ResourceList is a map whose keys, in every use in this repository,
range over cpu, memory and storage; it is modelled as a structure with
one optional Int per kind (a missing map key is none). External
library calls (time.ParseDuration, resource.ParseQuantity, duration
formatting) are passed in as explicit function parameters, since their
implementations live outside this repository.
-/

/-- Resource kinds used by the watcher: v1.ResourceCPU, v1.ResourceMemory,
v1.ResourceStorage. -/
inductive RKind where
  | cpu
  | memory
  | storage
deriving DecidableEq, Repr

/-- Model of v1.ResourceList restricted to the three kinds the repository
uses. A field of none models an absent map key. -/
structure ResourceList where
  cpu : Option Int
  memory : Option Int
  storage : Option Int
deriving DecidableEq, Repr

/-- The empty v1.ResourceList, make(v1.ResourceList). -/
def ResourceList.empty : ResourceList := ⟨none, none, none⟩

/-- Map lookup for one kind. -/
def ResourceList.getK (rl : ResourceList) (k : RKind) : Option Int :=
  match k with
  | RKind.cpu => rl.cpu
  | RKind.memory => rl.memory
  | RKind.storage => rl.storage

/-- Numeric value of an entry, treating an absent key as zero. -/
def optVal (u : Option Int) : Int := u.getD 0

/-- Componentwise combination of two resource lists. -/
def ResourceList.map2 (f : Option Int → Option Int → Option Int)
    (a b : ResourceList) : ResourceList :=
  ⟨f a.cpu b.cpu, f a.memory b.memory, f a.storage b.storage⟩

theorem ResourceList.getK_map2 (f : Option Int → Option Int → Option Int)
    (a b : ResourceList) (k : RKind) :
    (ResourceList.map2 f a b).getK k = f (a.getK k) (b.getK k) := by
  cases k <;> rfl

/-- The len(rl) == 0 test of a Go map, for the modelled key universe. -/
def ResourceList.isEmptyRL (rl : ResourceList) : Bool :=
  rl.cpu.isNone && rl.memory.isNone && rl.storage.isNone

/-- One component of the loop in addToResourceTracking (watcher.go:266-273):
for each key val of the added vector, if currentUsage has the key the value
is added in place, otherwise the value is inserted. Keys not in the added
vector are untouched. -/
def addComp (u v : Option Int) : Option Int :=
  match v with
  | none => u
  | some x =>
    match u with
    | none => some x
    | some y => some (y + x)

/-- One component of the loop in removeFromResourceTracking
(watcher.go:289-302): keys absent from the removed vector, or absent from
currentUsage, are untouched; otherwise the value is subtracted, and the key
is deleted when the difference is negative (tracking-inconsistency warning)
or zero. -/
def subCompClamp (u v : Option Int) : Option Int :=
  match v with
  | none => u
  | some x =>
    match u with
    | none => none
    | some y =>
      if y - x < 0 then none
      else if y - x = 0 then none
      else some (y - x)

/-- One component of the subtraction loop in updateResourceTracking
(watcher.go:327-336): like the remove loop, but with no negative-value
check; the key is deleted exactly when the difference is zero. -/
def subCompNoClamp (u v : Option Int) : Option Int :=
  match v with
  | none => u
  | some x =>
    match u with
    | none => none
    | some y =>
      if y - x = 0 then none
      else some (y - x)

/-- The nsResources field of NamespaceWatcher: a map from namespace name to
its tracked resource vector, modelled as an association list. -/
abbrev NsMap := List (String × ResourceList)

/-- Map lookup, nsResources[name]. -/
def NsMap.lookup (name : String) (l : NsMap) : Option ResourceList :=
  (List.find? (fun p => p.1 = name) l).map Prod.snd

/-- Removal of a key, delete(nsResources, name). -/
def NsMap.eraseKey (name : String) (l : NsMap) : NsMap :=
  List.filter (fun p => decide (p.1 ≠ name)) l

/-- Map assignment, nsResources[name] = v. -/
def NsMap.insertKey (name : String) (v : ResourceList) (l : NsMap) : NsMap :=
  (name, v) :: NsMap.eraseKey name l

/-- The resource-accounting part of the NamespaceWatcher state:
nsResources together with currentUsage. -/
structure Tracker where
  nsResources : NsMap
  currentUsage : ResourceList
deriving DecidableEq

/-- Watcher state right after NewNamespaceWatcher: both maps empty. -/
def Tracker.empty : Tracker := ⟨[], ResourceList.empty⟩

/-- addToResourceTracking (watcher.go:253-276): stores the extracted vector
under the namespace name and adds it into currentUsage componentwise. An
already-present name is overwritten in nsResources, yet its old vector is
not subtracted from currentUsage. -/
def addToResourceTracking (st : Tracker) (name : String) (v : ResourceList) :
    Tracker :=
  { nsResources := NsMap.insertKey name v st.nsResources,
    currentUsage := ResourceList.map2 addComp st.currentUsage v }

/-- removeFromResourceTracking (watcher.go:279-306): a name that is not
tracked is a no-op; otherwise its vector is subtracted from currentUsage
with the clamp-and-warn behaviour of subCompClamp and the entry is
deleted. -/
def removeFromResourceTracking (st : Tracker) (name : String) : Tracker :=
  match NsMap.lookup name st.nsResources with
  | none => st
  | some old =>
    { nsResources := NsMap.eraseKey name st.nsResources,
      currentUsage := ResourceList.map2 subCompClamp st.currentUsage old }

/-- updateResourceTracking (watcher.go:309-351): an untracked name is
handled by addToResourceTracking; otherwise the old vector is subtracted
(subCompNoClamp: no negative check), the new vector added, and the entry
replaced. -/
def updateResourceTracking (st : Tracker) (name : String) (newV : ResourceList) :
    Tracker :=
  match NsMap.lookup name st.nsResources with
  | none => addToResourceTracking st name newV
  | some old =>
    { nsResources := NsMap.insertKey name newV st.nsResources,
      currentUsage :=
        ResourceList.map2 addComp
          (ResourceList.map2 subCompNoClamp st.currentUsage old) newV }

/-- CanCreateNamespace, check of a single resource kind
(watcher.go:364-388): a kind with no configured limit passes; a kind
absent from the request is skipped by the continue statement; otherwise
currentUsage (zero when absent) plus the requested value is compared
against the limit with Cmp, denying only when strictly greater. -/
def canCreateKind (limit u req : Option Int) : Bool :=
  match limit with
  | none => true
  | some l =>
    match req with
    | none => true
    | some r => decide (optVal u + r ≤ l)

/-- CanCreateNamespace (watcher.go:354-391): empty globalLimits admits
everything; otherwise every configured kind is checked with
canCreateKind. -/
def CanCreateNamespace (limits u req : ResourceList) : Bool :=
  if limits.isEmptyRL then true
  else
    canCreateKind limits.cpu u.cpu req.cpu &&
    canCreateKind limits.memory u.memory req.memory &&
    canCreateKind limits.storage u.storage req.storage

/-- The timers field of NamespaceWatcher: namespace name to the expiration
instant of its pending one-shot timer, as an association list. -/
abbrev TimerMap := List (String × Int)

/-- Timer lookup, timers[name]. -/
def TimerMap.lookupT (name : String) (l : TimerMap) : Option Int :=
  (List.find? (fun p => p.1 = name) l).map Prod.snd

/-- Timer removal, delete(timers, name). -/
def TimerMap.eraseT (name : String) (l : TimerMap) : TimerMap :=
  List.filter (fun p => decide (p.1 ≠ name)) l

/-- Timer assignment, timers[name] = t; the Go code stops any prior timer
for the same name first, so the entry is replaced. -/
def TimerMap.insertT (name : String) (t : Int) (l : TimerMap) : TimerMap :=
  (name, t) :: TimerMap.eraseT name l

/-- The fields of a v1.Namespace object that the watcher reads: the name,
the labels tenama/namespace-duration, tenama/resource-cpu,
tenama/resource-memory and tenama/resource-storage (none models an absent
label), and the creation timestamp (an instant, in the same units as
durations). -/
structure NsObj where
  name : String
  durLabel : Option String
  cpuLabel : Option String
  memLabel : Option String
  stoLabel : Option String
  creation : Int
deriving DecidableEq, Repr

/-- extractNamespaceResources (watcher.go:409-437): each of the three
resource labels contributes an entry exactly when it is present and
resource.ParseQuantity accepts it; pq is that external parser. -/
def extractNamespaceResources (pq : String → Option Int) (ns : NsObj) :
    ResourceList :=
  ⟨ns.cpuLabel.bind pq, ns.memLabel.bind pq, ns.stoLabel.bind pq⟩

/-- Prefix test on rune lists, first argument the candidate prefix. -/
def listHasPfx : List Char → List Char → Bool
  | [], _ => true
  | _ :: _, [] => false
  | p :: ps, c :: cs => p = c && listHasPfx ps cs

/-- strings.HasPrefix(s, pre) of the Go standard library. -/
def strHasPfx (s pre : String) : Bool :=
  listHasPfx pre.data s.data

/-- shouldProcess (watcher.go:149-160): the reserved control-plane
namespace is rejected, the name must start with the configured prefix,
and the duration label must be present. -/
def shouldProcess (pfx : String) (ns : NsObj) : Bool :=
  decide (ns.name ≠ "tenama-system") &&
  strHasPfx ns.name pfx &&
  ns.durLabel.isSome

/-- schedule (watcher.go:163-196). The external time.ParseDuration is the
pd parameter; an absent label reads as the empty string, which that parser
rejects, so both cases collapse into none. If the expiration instant
creation plus duration is at or before now, the namespace is deleted at
once (second component collects cluster-side delete calls) and the timer
map is untouched; otherwise a timer entry replacing any prior one is
installed. A parse failure only logs and returns. -/
def schedule (pd : String → Option Int) (now : Int) (timers : TimerMap)
    (ns : NsObj) : TimerMap × List String :=
  match ns.durLabel.bind pd with
  | none => (timers, [])
  | some dur =>
    if ns.creation + dur - now ≤ 0 then (timers, [ns.name])
    else (TimerMap.insertT ns.name (ns.creation + dur) timers, [])

/-- The body of the time.AfterFunc closure installed by schedule
(watcher.go:186-192): it deletes the namespace (any error from the
cluster-side delete is only logged, watcher.go:226-236) and then removes
the timer entry; deleteSucceeded is the outcome of that delete call. -/
def fireTimerCallback (timers : TimerMap) (name : String)
    (deleteSucceeded : Bool) : TimerMap × List String :=
  (TimerMap.eraseT name timers, [name])

/-- An event from the namespace watch stream (watcher.go:126-143). -/
inductive WatchEvent where
  | added (ns : NsObj)
  | modified (ns : NsObj)
  | deleted (name : String)
deriving DecidableEq, Repr

/-- The timer index and the resource account of one NamespaceWatcher. -/
structure WatcherState where
  timers : TimerMap
  tracker : Tracker
deriving DecidableEq

/-- Event dispatch of the watch loop (watcher.go:126-143). Added:
processed namespaces are scheduled and added to resource tracking.
Modified: processed namespaces are re-scheduled and updated; others have
their timer cancelled and their resources removed. Deleted: timer
cancelled and resources removed. The second component collects
cluster-side delete calls issued synchronously by schedule. -/
def handleEvent (pd pq : String → Option Int) (pfx : String) (now : Int)
    (st : WatcherState) (ev : WatchEvent) : WatcherState × List String :=
  match ev with
  | WatchEvent.added ns =>
    if shouldProcess pfx ns then
      let s := schedule pd now st.timers ns
      (⟨s.1, addToResourceTracking st.tracker ns.name
              (extractNamespaceResources pq ns)⟩, s.2)
    else (st, [])
  | WatchEvent.modified ns =>
    if shouldProcess pfx ns then
      let s := schedule pd now st.timers ns
      (⟨s.1, updateResourceTracking st.tracker ns.name
              (extractNamespaceResources pq ns)⟩, s.2)
    else
      (⟨TimerMap.eraseT ns.name st.timers,
        removeFromResourceTracking st.tracker ns.name⟩, [])
  | WatchEvent.deleted name =>
    (⟨TimerMap.eraseT name st.timers,
      removeFromResourceTracking st.tracker name⟩, [])

/-- A JSON response written by a handler: HTTP status and message. -/
structure HttpResponse where
  status : Nat
  message : String
deriving DecidableEq, Repr

/-- strings.Trim(s, "/"): slash characters removed from both ends. -/
def trimSlashes (s : String) : String :=
  String.mk (((s.data.dropWhile (fun c => c = '/')).reverse.dropWhile
    (fun c => c = '/')).reverse)

/-- DeleteNamespace (src/unnamed/part_014:146-163). The handler trims the
path parameter, and when the name does not start with the configured
prefix it writes a 400 response, but there is no return statement, so
execution falls through: the cluster-side delete is issued for every
name (second component of the result), a failed delete writes a 500
response, and a final 200 response is always written. The responses are
listed in the order the code writes them; the HTTP layer sends the first
one. -/
def DeleteNamespaceHandler (pfx rawParam : String) (clusterDeleteOk : Bool) :
    List HttpResponse × Bool :=
  let name := trimSlashes rawParam
  let r1 : List HttpResponse :=
    if strHasPfx name pfx then []
    else [⟨400, "Namespace does not start with prefix " ++ pfx⟩]
  let r2 : List HttpResponse :=
    if clusterDeleteOk then [] else [⟨500, "Namespace not found"⟩]
  (r1 ++ r2 ++ [⟨200, "Namespace successfully deleted"⟩], true)

/-- One mutation of the resource account, as driven by reconciliation and
by Added, Modified and Deleted events (watcher.go:89-94 and 126-143). -/
inductive TrackOp where
  | addNs (name : String) (v : ResourceList)
  | updateNs (name : String) (v : ResourceList)
  | removeNs (name : String)
deriving DecidableEq

/-- Application of one resource-account operation. -/
def applyTrackOp (st : Tracker) (op : TrackOp) : Tracker :=
  match op with
  | TrackOp.addNs name v => addToResourceTracking st name v
  | TrackOp.updateNs name v => updateResourceTracking st name v
  | TrackOp.removeNs name => removeFromResourceTracking st name

/-- A sequence of resource-account operations, applied in order. -/
def runTrackOps (st : Tracker) (ops : List TrackOp) : Tracker :=
  List.foldl applyTrackOp st ops

/-- Every component of a vector is nonnegative (absent components count as
zero). Vectors extracted from namespace labels satisfy this: Kubernetes
label values cannot spell negative quantities. -/
def vecNonneg (v : ResourceList) : Bool :=
  decide (0 ≤ optVal v.cpu) &&
  decide (0 ≤ optVal v.memory) &&
  decide (0 ≤ optVal v.storage)

/-- The vector carried by one operation is nonnegative (removals carry
none). -/
def opNonneg (op : TrackOp) : Bool :=
  match op with
  | TrackOp.addNs _ v => vecNonneg v
  | TrackOp.updateNs _ v => vecNonneg v
  | TrackOp.removeNs _ => true

/-- Every vector occurring in a sequence of operations is nonnegative. -/
def opsNonneg (ops : List TrackOp) : Bool :=
  ops.all opNonneg

/-- Along the run starting at st, no add operation targets a name that is
already tracked at that point. -/
def freshAdds (st : Tracker) : List TrackOp → Bool
  | [] => true
  | op :: rest =>
    (match op with
     | TrackOp.addNs name _ => (NsMap.lookup name st.nsResources).isNone
     | _ => true) &&
    freshAdds (applyTrackOp st op) rest

/-- Componentwise sum of all tracked per-namespace vectors. -/
def sumVal (l : NsMap) (k : RKind) : Int :=
  (List.map (fun p : String × ResourceList => optVal (p.2.getK k)) l).sum

/-- Account consistency: the aggregate equals the componentwise sum of the
per-namespace vectors, component by component. -/
def consistentB (st : Tracker) : Bool :=
  decide (optVal (st.currentUsage.getK RKind.cpu) =
    sumVal st.nsResources RKind.cpu) &&
  decide (optVal (st.currentUsage.getK RKind.memory) =
    sumVal st.nsResources RKind.memory) &&
  decide (optVal (st.currentUsage.getK RKind.storage) =
    sumVal st.nsResources RKind.storage)

/-- Outcome of a create request at the admission gate. -/
inductive CreateOutcome where
  | created
  | denied429
deriving DecidableEq, Repr

/-- Modelled from the spec: the CreateNamespace handler of the current
internal handler file (api_namespaces.go) is not among the source files of
this snapshot; only its callers, its container with the watcher field, its
request model and the repository documentation are. Per the spec, the
handler calls canCreate, that is the embedded CanCreateNamespace gate of
watcher.go, before issuing the cluster-side create, and on denial answers
429 without creating anything. The Bool component records whether the
cluster-side create is issued. -/
def createNamespaceAdmission (limits u req : ResourceList) :
    CreateOutcome × Bool :=
  if CanCreateNamespace limits u req then (CreateOutcome.created, true)
  else (CreateOutcome.denied429, false)

/-- The optional resources block of a create request
(internal/models/namespace.go, ResourceRequest): cpu, memory and storage
as quantity strings. -/
structure ResourceRequest where
  cpu : String
  memory : String
  storage : String
deriving DecidableEq, Repr

/-- Label lookup in a crafted label map. -/
def lookupLabel (key : String) (labels : List (String × String)) :
    Option String :=
  (List.find? (fun p => p.1 = key) labels).map Prod.snd

/-- The labels set by craftNamespaceSpecification
(src/unnamed/part_014:510-520): created-by, the duration label carrying
fmt.Sprint of the parsed duration (formatDuration models the canonical
re-serialization of the external duration type, d the parsed duration),
and the two pod-security labels. -/
def craftBaseLabels (formatDuration : Int → String) (d : Int)
    (psVersion : String) : List (String × String) :=
  [("created-by", "tenama"),
   ("tenama/namespace-duration", formatDuration d),
   ("pod-security.kubernetes.io/enforce", "baseline"),
   ("pod-security.kubernetes.io/enforce-version", psVersion)]

/-- Modelled from the spec: the current internal handler file
(api_namespaces.go) is not among the source files of this snapshot. Per
the spec and the repository documentation, the namespace specification it
crafts carries, on top of the labels of craftBaseLabels, the labels
tenama/resource-cpu, tenama/resource-memory and tenama/resource-storage
holding the reservation strings whenever the request supplied a resources
block. -/
def craftNamespaceLabels (formatDuration : Int → String) (d : Int)
    (psVersion : String) (req : Option ResourceRequest) :
    List (String × String) :=
  craftBaseLabels formatDuration d psVersion ++
    (match req with
     | none => []
     | some r =>
       [("tenama/resource-cpu", r.cpu),
        ("tenama/resource-memory", r.memory),
        ("tenama/resource-storage", r.storage)])

/-- The character class of the compiled Go regular expression in
validateAndTransformToK8sName (src/unnamed/part_014:583). The pattern is
a raw-string literal whose text is open-bracket, minus, a-z, backslash,
backslash, d, close-bracket, so the class holds the minus sign, the
lowercase letters, an escaped literal backslash, and the letter d; it
does not hold the digits. -/
def goClassMatch (c : Char) : Bool :=
  c = '-' || ('a' ≤ c && c ≤ 'z') || c = '\\'

/-- The replacement loop of validateAndTransformToK8sName
(src/unnamed/part_014:584-594): for every rune of the lowercased input,
when the rune does not match the class a separator rune is appended, and
then the rune itself is appended in either case, so non-matching runes
are kept with a separator inserted in front of them. -/
def normalizeRunes (sep : Char) : List Char → List Char
  | [] => []
  | c :: rest =>
    if goClassMatch c then c :: normalizeRunes sep rest
    else sep :: c :: normalizeRunes sep rest

/-- chompBeginningCharacter (src/unnamed/part_014:621-633): leading
occurrences of the rune are dropped. -/
def chompBeginningCharacter (l : List Char) (c : Char) : List Char :=
  List.dropWhile (fun x => x = c) l

/-- chompEndingCharacter (src/unnamed/part_014:640-649): trailing
occurrences of the rune are dropped, expressed by reversing, dropping
leading ones and reversing back. -/
def chompEndingCharacter (l : List Char) (c : Char) : List Char :=
  (List.dropWhile (fun x => x = c) l.reverse).reverse

/-- validateAndTransformToK8sName (src/unnamed/part_014:570-619): rejects
the empty input, lowercases (modelled for ASCII), runs the replacement
loop, truncates to the first 62 runes when more than 63, chomps leading
and trailing separators, and rejects an empty result. -/
def validateAndTransformToK8sName (inputString : String) (sepRune : Char) :
    Except String String :=
  if inputString = "" then Except.error "parameter namespace is required"
  else
    let lower := inputString.data.map Char.toLower
    let normalized := normalizeRunes sepRune lower
    let truncated :=
      if 63 < normalized.length then normalized.take 62 else normalized
    let chomped :=
      chompEndingCharacter (chompBeginningCharacter truncated sepRune) sepRune
    if chomped.isEmpty then
      Except.error "namespace empty after matching all characters against regex"
    else Except.ok (String.mk chomped)

/-- A character allowed anywhere in an RFC 1123 label: lowercase letter,
digit or minus sign. This definition follows the words of the claim. -/
def rfcLabelChar (c : Char) : Bool :=
  ('a' ≤ c && c ≤ 'z') || ('0' ≤ c && c ≤ '9') || c = '-'

/-- A character allowed at the ends of an RFC 1123 label. -/
def rfcAlnumChar (c : Char) : Bool :=
  ('a' ≤ c && c ≤ 'z') || ('0' ≤ c && c ≤ '9')

/-- The RFC 1123 label shape asserted by the claim: nonempty, at most 63
characters, every character in the class, first and last alphanumeric. -/
def matchesRFC1123Label (s : String) : Bool :=
  match s.data with
  | [] => false
  | c :: rest =>
    rfcAlnumChar c &&
    List.all (c :: rest) rfcLabelChar &&
    rfcAlnumChar (List.getLastD (c :: rest) c) &&
    decide ((c :: rest).length ≤ 63)

/-- Keys of an association list are pairwise distinct. Holds for every map
state the watcher can build, since Go map assignment and delete keep keys
unique. -/
abbrev keysNodup {α : Type} (l : List (String × α)) : Prop :=
  List.Nodup (List.map Prod.fst l)

theorem filter_ne_of_find?_none {α : Type} {n : String}
    {l : List (String × α)}
    (h : List.find? (fun q => decide (q.1 = n)) l = none) :
    List.filter (fun q => decide (q.1 ≠ n)) l = l := by
  rw [List.filter_eq_self]
  intro a ha
  have hn := List.find?_eq_none.mp h a ha
  simp only [decide_eq_true_eq] at hn ⊢
  intro hc
  exact hn hc

theorem keysNodup_filter {α : Type} (p : String × α → Bool)
    {l : List (String × α)} (h : keysNodup l) :
    keysNodup (List.filter p l) :=
  List.Nodup.sublist (List.Sublist.map Prod.fst (List.filter_sublist l)) h

theorem not_mem_keys_filter_ne {α : Type} (n : String)
    (l : List (String × α)) :
    n ∉ List.map Prod.fst (List.filter (fun q => decide (q.1 ≠ n)) l) := by
  intro hmem
  rcases List.mem_map.mp hmem with ⟨q, hq, hfst⟩
  have := List.of_mem_filter hq
  simp only [decide_eq_true_eq] at this
  exact this hfst

theorem sum_map_filter_le {α : Type} (g : α → Int) (p : α → Bool)
    (l : List α) (h : ∀ x ∈ l, 0 ≤ g x) :
    (List.map g (List.filter p l)).sum ≤ (List.map g l).sum := by
  induction l with
  | nil => simp
  | cons a t ih =>
    have ht : ∀ x ∈ t, 0 ≤ g x := fun x hx => h x (List.mem_cons_of_mem a hx)
    have ha : 0 ≤ g a := h a (List.mem_cons_self a t)
    by_cases hpa : p a
    · rw [List.filter_cons_of_pos hpa]
      simpa using ih ht
    · rw [List.filter_cons_of_neg hpa]
      simp only [List.map_cons, List.sum_cons]
      have := ih ht
      omega

theorem sum_map_nonneg {α : Type} (g : α → Int) (l : List α)
    (h : ∀ x ∈ l, 0 ≤ g x) : 0 ≤ (List.map g l).sum := by
  induction l with
  | nil => simp
  | cons a t ih =>
    have ht : ∀ x ∈ t, 0 ≤ g x := fun x hx => h x (List.mem_cons_of_mem a hx)
    have ha : 0 ≤ g a := h a (List.mem_cons_self a t)
    simp only [List.map_cons, List.sum_cons]
    have := ih ht
    omega

theorem filter_ne_eq_self_of_not_mem {α : Type} {n : String}
    {t : List (String × α)} (hna : n ∉ List.map Prod.fst t) :
    List.filter (fun q => decide (q.1 ≠ n)) t = t := by
  rw [List.filter_eq_self]
  intro q hq
  simp only [decide_eq_true_eq]
  intro hc
  exact hna (hc ▸ List.mem_map_of_mem Prod.fst hq)

theorem sum_map_decomp {α : Type} (g : α → Int) {n : String}
    {l : List (String × α)} {pr : String × α}
    (hnd : keysNodup l)
    (h : List.find? (fun q => decide (q.1 = n)) l = some pr) :
    (List.map (fun q : String × α => g q.2) l).sum =
      g pr.2 + (List.map (fun q : String × α => g q.2)
        (List.filter (fun q => decide (q.1 ≠ n)) l)).sum := by
  induction l with
  | nil => simp at h
  | cons a t ih =>
    rcases List.nodup_cons.mp hnd with ⟨hna, hnt⟩
    by_cases heq : a.1 = n
    · have hpos : (fun q : String × α => decide (q.1 = n)) a = true := by
        simp [heq]

      rw [List.find?_cons_of_pos t hpos] at h
      cases h
      rw [List.filter_cons_of_neg (by simp [heq])]
      rw [filter_ne_eq_self_of_not_mem (heq ▸ hna)]
      simp
    · have hneg : ¬ ((fun q : String × α => decide (q.1 = n)) a = true) := by
        simp [heq]
      rw [List.find?_cons_of_neg t hneg] at h
      rw [List.filter_cons_of_pos (by simp [heq])]
      simp only [List.map_cons, List.sum_cons]
      rw [ih hnt h]
      ring

theorem length_filter_of_find? {α : Type} {n : String}
    {l : List (String × α)} {pr : String × α}
    (hnd : keysNodup l)
    (h : List.find? (fun q => decide (q.1 = n)) l = some pr) :
    (List.filter (fun q => decide (q.1 ≠ n)) l).length + 1 = l.length := by
  induction l with
  | nil => simp at h
  | cons a t ih =>
    rcases List.nodup_cons.mp hnd with ⟨hna, hnt⟩
    by_cases heq : a.1 = n
    · rw [List.filter_cons_of_neg (by simp [heq])]
      rw [filter_ne_eq_self_of_not_mem (heq ▸ hna)]
      simp
    · have hneg : ¬ ((fun q : String × α => decide (q.1 = n)) a = true) := by
        simp [heq]
      rw [List.find?_cons_of_neg t hneg] at h
      rw [List.filter_cons_of_pos (by simp [heq])]
      simp only [List.length_cons]
      rw [← ih hnt h]

/-- Every tracked vector has nonnegative components. -/
def entriesNonneg (l : NsMap) : Prop := ∀ p ∈ l, vecNonneg p.2 = true

/-- Structural well-formedness of the account: distinct keys and
nonnegative tracked vectors. -/
def TrackerWF (st : Tracker) : Prop :=
  keysNodup st.nsResources ∧ entriesNonneg st.nsResources

/-- The aggregate equals the componentwise sum of the tracked vectors. -/
def Consistent (st : Tracker) : Prop :=
  ∀ k, optVal (st.currentUsage.getK k) = sumVal st.nsResources k

/-- The aggregate is at least the componentwise sum of the tracked
vectors; this is the inequality that survives duplicate adds. -/
def DominatesSum (st : Tracker) : Prop :=
  ∀ k, sumVal st.nsResources k ≤ optVal (st.currentUsage.getK k)

theorem vecNonneg_getK {v : ResourceList} (h : vecNonneg v = true)
    (k : RKind) : 0 ≤ optVal (v.getK k) := by
  simp only [vecNonneg, Bool.and_eq_true, decide_eq_true_eq] at h
  cases k <;> simp [ResourceList.getK] <;> omega

theorem sumVal_nonneg {l : NsMap} (h : entriesNonneg l) (k : RKind) :
    0 ≤ sumVal l k :=
  sum_map_nonneg _ l fun p hp => vecNonneg_getK (h p hp) k

theorem sumVal_eraseKey_le {n : String} {l : NsMap} (h : entriesNonneg l)
    (k : RKind) : sumVal (NsMap.eraseKey n l) k ≤ sumVal l k :=
  sum_map_filter_le _ _ l fun p hp => vecNonneg_getK (h p hp) k

theorem entriesNonneg_eraseKey {n : String} {l : NsMap}
    (h : entriesNonneg l) : entriesNonneg (NsMap.eraseKey n l) :=
  fun p hp => h p (List.mem_of_mem_filter hp)

theorem entriesNonneg_insertKey {n : String} {v : ResourceList} {l : NsMap}
    (h : entriesNonneg l) (hv : vecNonneg v = true) :
    entriesNonneg (NsMap.insertKey n v l) := by
  intro p hp
  rcases List.mem_cons.mp hp with hh | ht
  · rw [hh]
    exact hv
  · exact entriesNonneg_eraseKey h p ht

theorem keysNodup_eraseKey {n : String} {l : NsMap} (h : keysNodup l) :
    keysNodup (NsMap.eraseKey n l) :=
  keysNodup_filter _ h

theorem keysNodup_insertKey {n : String} {v : ResourceList} {l : NsMap}
    (h : keysNodup l) : keysNodup (NsMap.insertKey n v l) := by
  refine List.nodup_cons.mpr ⟨?_, keysNodup_eraseKey h⟩
  exact not_mem_keys_filter_ne n l

theorem sumVal_insertKey (n : String) (v : ResourceList) (l : NsMap)
    (k : RKind) :
    sumVal (NsMap.insertKey n v l) k =
      optVal (v.getK k) + sumVal (NsMap.eraseKey n l) k := by
  simp [sumVal, NsMap.insertKey]

theorem eraseKey_of_lookup_none {n : String} {l : NsMap}
    (h : NsMap.lookup n l = none) : NsMap.eraseKey n l = l := by
  unfold NsMap.lookup at h
  unfold NsMap.eraseKey
  exact filter_ne_of_find?_none (by simpa using h)

theorem lookup_some_find? {n : String} {l : NsMap} {v : ResourceList}
    (h : NsMap.lookup n l = some v) :
    ∃ pr : String × ResourceList,
      List.find? (fun q => decide (q.1 = n)) l = some pr ∧ pr.2 = v := by
  unfold NsMap.lookup at h
  cases hf : List.find? (fun q => decide (q.1 = n)) l with
  | none =>
    rw [hf] at h
    simp at h
  | some pr =>
    rw [hf] at h
    simp at h
    exact ⟨pr, rfl, h⟩

theorem sumVal_lookup_decomp {n : String} {l : NsMap} {v : ResourceList}
    (hnd : keysNodup l) (h : NsMap.lookup n l = some v) (k : RKind) :
    sumVal l k = optVal (v.getK k) + sumVal (NsMap.eraseKey n l) k := by
  rcases lookup_some_find? h with ⟨pr, hf, hv⟩
  have := sum_map_decomp (fun r : ResourceList => optVal (r.getK k)) hnd hf
  rw [hv] at this
  exact this

theorem lookup_some_nonneg {n : String} {l : NsMap} {v : ResourceList}
    (hnn : entriesNonneg l) (h : NsMap.lookup n l = some v) :
    vecNonneg v = true := by
  rcases lookup_some_find? h with ⟨pr, hf, hv⟩
  exact hv ▸ hnn pr (List.mem_of_find?_eq_some hf)

theorem optVal_addComp (u v : Option Int) :
    optVal (addComp u v) = optVal u + optVal v := by
  cases v with
  | none => simp [addComp, optVal]
  | some x =>
    cases u with
    | none => simp [addComp, optVal]
    | some y => simp [addComp, optVal]

theorem subCompClamp_lower (u v : Option Int) (hv : 0 ≤ optVal v) :
    optVal u - optVal v ≤ optVal (subCompClamp u v) := by
  cases v with
  | none => simp [subCompClamp, optVal]
  | some x =>
    cases u with
    | none =>
      simp only [subCompClamp, optVal, Option.getD] at *
      omega
    | some y =>
      simp only [subCompClamp]
      split_ifs <;> simp [optVal] <;> omega

theorem subCompNoClamp_lower (u v : Option Int) (hv : 0 ≤ optVal v) :
    optVal u - optVal v ≤ optVal (subCompNoClamp u v) := by
  cases v with
  | none => simp [subCompNoClamp, optVal]
  | some x =>
    cases u with
    | none =>
      simp only [subCompNoClamp, optVal, Option.getD] at *
      omega
    | some y =>
      simp only [subCompNoClamp]
      split_ifs <;> simp [optVal] <;> omega

theorem subCompClamp_exact (u v : Option Int)
    (h0 : u = none → optVal v = 0) (hle : optVal v ≤ optVal u) :
    optVal (subCompClamp u v) = optVal u - optVal v := by
  cases v with
  | none => simp [subCompClamp, optVal]
  | some x =>
    cases u with
    | none =>
      have := h0 rfl
      simp only [subCompClamp, optVal, Option.getD] at *
      omega
    | some y =>
      simp only [subCompClamp]
      simp only [optVal, Option.getD] at hle
      split_ifs <;> simp [optVal] <;> omega

theorem subCompNoClamp_exact (u v : Option Int)
    (h0 : u = none → optVal v = 0) :
    optVal (subCompNoClamp u v) = optVal u - optVal v := by
  cases v with
  | none => simp [subCompNoClamp, optVal]
  | some x =>
    cases u with
    | none =>
      have := h0 rfl
      simp only [subCompNoClamp, optVal, Option.getD] at *
      omega
    | some y =>
      simp only [subCompNoClamp]
      split_ifs <;> simp [optVal] <;> omega

theorem TrackerWF_add {st : Tracker} {n : String} {v : ResourceList}
    (hwf : TrackerWF st) (hv : vecNonneg v = true) :
    TrackerWF (addToResourceTracking st n v) :=
  ⟨keysNodup_insertKey hwf.1, entriesNonneg_insertKey hwf.2 hv⟩

theorem TrackerWF_remove {st : Tracker} {n : String}
    (hwf : TrackerWF st) : TrackerWF (removeFromResourceTracking st n) := by
  rcases hlk : NsMap.lookup n st.nsResources with _ | old
  · simpa [removeFromResourceTracking, hlk] using hwf
  · have : removeFromResourceTracking st n =
      { nsResources := NsMap.eraseKey n st.nsResources,
        currentUsage :=
          ResourceList.map2 subCompClamp st.currentUsage old } := by
      simp [removeFromResourceTracking, hlk]
    rw [this]
    exact ⟨keysNodup_eraseKey hwf.1, entriesNonneg_eraseKey hwf.2⟩

theorem TrackerWF_update {st : Tracker} {n : String} {v : ResourceList}
    (hwf : TrackerWF st) (hv : vecNonneg v = true) :
    TrackerWF (updateResourceTracking st n v) := by
  rcases hlk : NsMap.lookup n st.nsResources with _ | old
  · have : updateResourceTracking st n v = addToResourceTracking st n v := by
      simp [updateResourceTracking, hlk]
    rw [this]
    exact TrackerWF_add hwf hv
  · have : updateResourceTracking st n v =
      { nsResources := NsMap.insertKey n v st.nsResources,
        currentUsage :=
          ResourceList.map2 addComp
            (ResourceList.map2 subCompNoClamp st.currentUsage old) v } := by
      simp [updateResourceTracking, hlk]
    rw [this]
    exact ⟨keysNodup_insertKey hwf.1, entriesNonneg_insertKey hwf.2 hv⟩

theorem DominatesSum_add {st : Tracker} {n : String} {v : ResourceList}
    (hwf : TrackerWF st) (hd : DominatesSum st) :
    DominatesSum (addToResourceTracking st n v) := by
  intro k
  have h2 := sumVal_eraseKey_le (n := n) hwf.2 k
  have h3 := hd k
  show sumVal (NsMap.insertKey n v st.nsResources) k ≤
    optVal ((ResourceList.map2 addComp st.currentUsage v).getK k)
  rw [ResourceList.getK_map2, optVal_addComp, sumVal_insertKey]
  omega

theorem DominatesSum_remove {st : Tracker} {n : String}
    (hwf : TrackerWF st) (hd : DominatesSum st) :
    DominatesSum (removeFromResourceTracking st n) := by
  rcases hlk : NsMap.lookup n st.nsResources with _ | old
  · simpa [removeFromResourceTracking, hlk] using hd
  · have hred : removeFromResourceTracking st n =
      { nsResources := NsMap.eraseKey n st.nsResources,
        currentUsage :=
          ResourceList.map2 subCompClamp st.currentUsage old } := by
      simp [removeFromResourceTracking, hlk]
    rw [hred]
    intro k
    have hlow := subCompClamp_lower (st.currentUsage.getK k) (old.getK k)
      (vecNonneg_getK (lookup_some_nonneg hwf.2 hlk) k)
    have hdec := sumVal_lookup_decomp hwf.1 hlk k
    have h3 := hd k
    show sumVal (NsMap.eraseKey n st.nsResources) k ≤
      optVal ((ResourceList.map2 subCompClamp st.currentUsage old).getK k)
    rw [ResourceList.getK_map2]
    omega

theorem DominatesSum_update {st : Tracker} {n : String} {v : ResourceList}
    (hwf : TrackerWF st) (hd : DominatesSum st) :
    DominatesSum (updateResourceTracking st n v) := by
  rcases hlk : NsMap.lookup n st.nsResources with _ | old
  · have hred : updateResourceTracking st n v = addToResourceTracking st n v := by
      simp [updateResourceTracking, hlk]
    rw [hred]
    exact DominatesSum_add hwf hd
  · have hred : updateResourceTracking st n v =
      { nsResources := NsMap.insertKey n v st.nsResources,
        currentUsage :=
          ResourceList.map2 addComp
            (ResourceList.map2 subCompNoClamp st.currentUsage old) v } := by
      simp [updateResourceTracking, hlk]
    rw [hred]
    intro k
    have hlow := subCompNoClamp_lower (st.currentUsage.getK k) (old.getK k)
      (vecNonneg_getK (lookup_some_nonneg hwf.2 hlk) k)
    have hdec := sumVal_lookup_decomp hwf.1 hlk k
    have h3 := hd k
    show sumVal (NsMap.insertKey n v st.nsResources) k ≤
      optVal ((ResourceList.map2 addComp
        (ResourceList.map2 subCompNoClamp st.currentUsage old) v).getK k)
    rw [ResourceList.getK_map2, optVal_addComp, ResourceList.getK_map2,
      sumVal_insertKey]
    omega

theorem Consistent_add_fresh {st : Tracker} {n : String} {v : ResourceList}
    (hc : Consistent st) (hlk : NsMap.lookup n st.nsResources = none) :
    Consistent (addToResourceTracking st n v) := by
  intro k
  have h3 := hc k
  show optVal ((ResourceList.map2 addComp st.currentUsage v).getK k) =
    sumVal (NsMap.insertKey n v st.nsResources) k
  rw [ResourceList.getK_map2, optVal_addComp, sumVal_insertKey,
    eraseKey_of_lookup_none hlk]
  omega

theorem Consistent_remove {st : Tracker} {n : String}
    (hwf : TrackerWF st) (hc : Consistent st) :
    Consistent (removeFromResourceTracking st n) := by
  rcases hlk : NsMap.lookup n st.nsResources with _ | old
  · simpa [removeFromResourceTracking, hlk] using hc
  · have hred : removeFromResourceTracking st n =
      { nsResources := NsMap.eraseKey n st.nsResources,
        currentUsage :=
          ResourceList.map2 subCompClamp st.currentUsage old } := by
      simp [removeFromResourceTracking, hlk]
    rw [hred]
    intro k
    have hdec := sumVal_lookup_decomp hwf.1 hlk k
    have ha := vecNonneg_getK (lookup_some_nonneg hwf.2 hlk) k
    have hse := sumVal_nonneg (entriesNonneg_eraseKey (n := n) hwf.2) k
    have h3 := hc k
    have h0 : st.currentUsage.getK k = none → optVal (old.getK k) = 0 := by
      intro hnone
      rw [hnone] at h3
      simp only [optVal, Option.getD] at h3
      omega
    have hex := subCompClamp_exact (st.currentUsage.getK k) (old.getK k) h0
      (by omega)
    show optVal ((ResourceList.map2 subCompClamp st.currentUsage old).getK k) =
      sumVal (NsMap.eraseKey n st.nsResources) k
    rw [ResourceList.getK_map2, hex]
    omega

theorem Consistent_update {st : Tracker} {n : String} {v : ResourceList}
    (hwf : TrackerWF st) (hc : Consistent st) :
    Consistent (updateResourceTracking st n v) := by
  rcases hlk : NsMap.lookup n st.nsResources with _ | old
  · have hred : updateResourceTracking st n v = addToResourceTracking st n v := by
      simp [updateResourceTracking, hlk]
    rw [hred]
    exact Consistent_add_fresh hc hlk
  · have hred : updateResourceTracking st n v =
      { nsResources := NsMap.insertKey n v st.nsResources,
        currentUsage :=
          ResourceList.map2 addComp
            (ResourceList.map2 subCompNoClamp st.currentUsage old) v } := by
      simp [updateResourceTracking, hlk]
    rw [hred]
    intro k
    have hdec := sumVal_lookup_decomp hwf.1 hlk k
    have ha := vecNonneg_getK (lookup_some_nonneg hwf.2 hlk) k
    have hse := sumVal_nonneg (entriesNonneg_eraseKey (n := n) hwf.2) k
    have h3 := hc k
    have h0 : st.currentUsage.getK k = none → optVal (old.getK k) = 0 := by
      intro hnone
      rw [hnone] at h3
      simp only [optVal, Option.getD] at h3
      omega
    have hex := subCompNoClamp_exact (st.currentUsage.getK k) (old.getK k) h0
    show optVal ((ResourceList.map2 addComp
      (ResourceList.map2 subCompNoClamp st.currentUsage old) v).getK k) =
      sumVal (NsMap.insertKey n v st.nsResources) k
    rw [ResourceList.getK_map2, optVal_addComp, ResourceList.getK_map2, hex,
      sumVal_insertKey]
    omega

theorem runTrackOps_cons (st : Tracker) (op : TrackOp) (rest : List TrackOp) :
    runTrackOps st (op :: rest) = runTrackOps (applyTrackOp st op) rest := rfl

theorem run_preserves_wf_dom (ops : List TrackOp) :
    ∀ st : Tracker, opsNonneg ops = true → TrackerWF st → DominatesSum st →
      TrackerWF (runTrackOps st ops) ∧ DominatesSum (runTrackOps st ops) := by
  induction ops with
  | nil =>
    intro st _ hwf hd
    exact ⟨hwf, hd⟩
  | cons op rest ih =>
    intro st hnn hwf hd
    rw [opsNonneg, List.all_cons, Bool.and_eq_true] at hnn
    have hstep : TrackerWF (applyTrackOp st op) ∧
        DominatesSum (applyTrackOp st op) := by
      cases op with
      | addNs name v =>
        exact ⟨TrackerWF_add hwf (by simpa [opNonneg] using hnn.1),
          DominatesSum_add hwf hd⟩
      | updateNs name v =>
        exact ⟨TrackerWF_update hwf (by simpa [opNonneg] using hnn.1),
          DominatesSum_update hwf hd⟩
      | removeNs name =>
        exact ⟨TrackerWF_remove hwf, DominatesSum_remove hwf hd⟩
    rw [runTrackOps_cons]
    exact ih (applyTrackOp st op) hnn.2 hstep.1 hstep.2

theorem run_preserves_consistent (ops : List TrackOp) :
    ∀ st : Tracker, opsNonneg ops = true → freshAdds st ops = true →
      TrackerWF st → Consistent st →
      TrackerWF (runTrackOps st ops) ∧ Consistent (runTrackOps st ops) := by
  induction ops with
  | nil =>
    intro st _ _ hwf hc
    exact ⟨hwf, hc⟩
  | cons op rest ih =>
    intro st hnn hfr hwf hc
    rw [opsNonneg, List.all_cons, Bool.and_eq_true] at hnn
    rw [runTrackOps_cons]
    cases op with
    | addNs name v =>
      simp only [freshAdds, Bool.and_eq_true,
        Option.isNone_iff_eq_none] at hfr
      exact ih _ hnn.2 hfr.2
        (TrackerWF_add hwf (by simpa [opNonneg] using hnn.1))
        (Consistent_add_fresh hc hfr.1)
    | updateNs name v =>
      simp only [freshAdds, Bool.true_and] at hfr
      exact ih _ hnn.2 hfr
        (TrackerWF_update hwf (by simpa [opNonneg] using hnn.1))
        (Consistent_update hwf hc)
    | removeNs name =>
      simp only [freshAdds, Bool.true_and] at hfr
      exact ih _ hnn.2 hfr (TrackerWF_remove hwf) (Consistent_remove hwf hc)

theorem consistentB_eq_true_iff (st : Tracker) :
    consistentB st = true ↔ Consistent st := by
  unfold consistentB Consistent
  simp only [Bool.and_eq_true, decide_eq_true_eq]
  constructor
  · rintro ⟨⟨h1, h2⟩, h3⟩ k
    cases k
    · exact h1
    · exact h2
    · exact h3
  · intro h
    exact ⟨⟨h RKind.cpu, h RKind.memory⟩, h RKind.storage⟩

theorem TrackerWF_empty : TrackerWF Tracker.empty := by
  constructor
  · exact List.nodup_nil
  · intro p hp
    simp [Tracker.empty] at hp

theorem Consistent_empty : Consistent Tracker.empty := by
  intro k
  cases k <;> rfl

theorem DominatesSum_empty : DominatesSum Tracker.empty := by
  intro k
  cases k <;> simp [Tracker.empty, ResourceList.empty, ResourceList.getK,
    sumVal, optVal]

theorem canCreateKind_true_iff (limit u req : Option Int) :
    canCreateKind limit u req = true ↔
      ∀ l r : Int, limit = some l → req = some r → optVal u + r ≤ l := by
  cases limit with
  | none => simp [canCreateKind]
  | some l0 =>
    cases req with
    | none => simp [canCreateKind]
    | some r0 => simp [canCreateKind]

theorem isEmptyRL_getK {limits : ResourceList}
    (h : limits.isEmptyRL = true) (k : RKind) : limits.getK k = none := by
  simp only [ResourceList.isEmptyRL, Bool.and_eq_true,
    Option.isNone_iff_eq_none] at h
  cases k <;> simp [ResourceList.getK, h.1.1, h.1.2, h.2]

theorem CanCreateNamespace_true_iff (limits u req : ResourceList) :
    CanCreateNamespace limits u req = true ↔
      (limits.isEmptyRL = true ∨
        ∀ k : RKind, ∀ l r : Int, limits.getK k = some l →
          req.getK k = some r → optVal (u.getK k) + r ≤ l) := by
  unfold CanCreateNamespace
  by_cases h : limits.isEmptyRL = true
  · simp [h]
  · rw [if_neg h]
    simp only [Bool.and_eq_true, canCreateKind_true_iff]
    constructor
    · rintro ⟨⟨h1, h2⟩, h3⟩
      refine Or.inr ?_
      intro k l r hl hr
      cases k
      · exact h1 l r hl hr
      · exact h2 l r hl hr
      · exact h3 l r hl hr
    · rintro (hemp | hall)
      · exact absurd hemp h
      · exact ⟨⟨fun l r hl hr => hall RKind.cpu l r hl hr,
          fun l r hl hr => hall RKind.memory l r hl hr⟩,
          fun l r hl hr => hall RKind.storage l r hl hr⟩

/-- C1: for every create request carrying a resource reservation, the
orchestrator consults the admission gate CanCreateNamespace before the
cluster-side create, and when the reservation would push the aggregate
above a configured global limit for some kind the gate answers false and
the request is answered 429 with no namespace created (the Bool component
false records that no cluster-side create is issued). The handler wrapper
is modelled from the spec because the current handler source file is
absent from this snapshot; the gate itself is embedded from
watcher.go. -/
theorem C1_admission_denied_429 (limits u req : ResourceList) (k : RKind)
    (l r : Int) (hl : limits.getK k = some l) (hr : req.getK k = some r)
    (hover : l < optVal (u.getK k) + r) :
    CanCreateNamespace limits u req = false ∧
    createNamespaceAdmission limits u req = (CreateOutcome.denied429, false) := by
  have hfalse : CanCreateNamespace limits u req = false := by
    cases hb : CanCreateNamespace limits u req with
    | false => rfl
    | true =>
      exfalso
      rcases (CanCreateNamespace_true_iff limits u req).mp hb with hemp | hall
      · rw [isEmptyRL_getK hemp k] at hl
        exact Option.noConfusion hl
      · have := hall k l r hl hr
        omega
  refine ⟨hfalse, ?_⟩
  simp [createNamespaceAdmission, hfalse]

/-- C1 witness: with a cpu limit of 5, current aggregate 3 and a request
of 3, the admission gate denies and the modelled handler answers 429
without issuing a create. -/
theorem C1_admission_denied_429_witness :
    (⟨some 5, none, none⟩ : ResourceList).getK RKind.cpu = some 5 ∧
    (⟨some 3, none, none⟩ : ResourceList).getK RKind.cpu = some 3 ∧
    createNamespaceAdmission ⟨some 5, none, none⟩ ⟨some 3, none, none⟩
      ⟨some 3, none, none⟩ = (CreateOutcome.denied429, false) :=
  ⟨rfl, rfl,
    (C1_admission_denied_429 ⟨some 5, none, none⟩ ⟨some 3, none, none⟩
      ⟨some 3, none, none⟩ RKind.cpu 5 3 rfl rfl (by decide)).2⟩

/-- C7 counterexample: with a cpu limit of 1000 and a current aggregate of
5000, a request that names no resource at all is admitted, although the
kind cpu present in the limits does not satisfy aggregate plus zero at
most limit; the claim that every kind present in the limits is checked is
false on the code, which skips kinds absent from the request. -/
theorem C7_counterexample :
    CanCreateNamespace ⟨some 1000, none, none⟩ ⟨some 5000, none, none⟩
      ResourceList.empty = true ∧
    (⟨some 1000, none, none⟩ : ResourceList).getK RKind.cpu = some 1000 ∧
    ResourceList.empty.getK RKind.cpu = none ∧
    ¬(optVal ((⟨some 5000, none, none⟩ : ResourceList).getK RKind.cpu) + 0 ≤
      1000) := by
  refine ⟨by decide, rfl, rfl, by decide⟩

/-- C7 (amended): a resource kind present in globalLimits but absent from
the requested vector is skipped entirely and not checked; admission
succeeds if and only if the limits are empty or every kind present in
both the limits and the request satisfies aggregate plus requested at
most limit. -/
theorem C7_admission_amended (limits u req : ResourceList) :
    CanCreateNamespace limits u req = true ↔
      (limits.isEmptyRL = true ∨
        ∀ k : RKind, ∀ l r : Int, limits.getK k = some l →
          req.getK k = some r → optVal (u.getK k) + r ≤ l) :=
  CanCreateNamespace_true_iff limits u req

/-- C7 witness: a request of 2 cpu against a limit of 5 with aggregate 3
is admitted through the amended characterization. -/
theorem C7_admission_amended_witness :
    CanCreateNamespace ⟨some 5, none, none⟩ ⟨some 3, none, none⟩
      ⟨some 2, none, none⟩ = true :=
  (C7_admission_amended ⟨some 5, none, none⟩ ⟨some 3, none, none⟩
    ⟨some 2, none, none⟩).mpr (Or.inr (fun k l r hl hr => by
      cases k <;> simp [ResourceList.getK, optVal] at hl hr ⊢ <;> omega))

/-- C2: every namespace specification the orchestrator crafts carries the
label created-by with value tenama and the label tenama/namespace-duration
carrying the parsed duration re-serialized in canonical form (the label is
built from fmt.Sprint of the parsed duration value d), and, whenever the
request supplied a resource reservation, additionally the labels
tenama/resource-cpu, tenama/resource-memory and tenama/resource-storage
carrying the reservation strings. The resource-label part is modelled
from the spec because the current handler source file is absent from this
snapshot; the base labels are embedded from craftNamespaceSpecification
in src/unnamed/part_014. -/
theorem C2_created_namespace_labels (formatDuration : Int → String)
    (d : Int) (psVersion : String) (req : Option ResourceRequest) :
    lookupLabel "created-by"
      (craftNamespaceLabels formatDuration d psVersion req) = some "tenama" ∧
    lookupLabel "tenama/namespace-duration"
      (craftNamespaceLabels formatDuration d psVersion req) =
        some (formatDuration d) ∧
    ∀ r : ResourceRequest, req = some r →
      lookupLabel "tenama/resource-cpu"
        (craftNamespaceLabels formatDuration d psVersion req) = some r.cpu ∧
      lookupLabel "tenama/resource-memory"
        (craftNamespaceLabels formatDuration d psVersion req) = some r.memory ∧
      lookupLabel "tenama/resource-storage"
        (craftNamespaceLabels formatDuration d psVersion req) =
          some r.storage := by
  refine ⟨?_, ?_, ?_⟩
  · cases req <;> rfl
  · cases req <;> rfl
  · intro r hre
    subst hre
    exact ⟨rfl, rfl, rfl⟩

/-- C2 witness: a concrete request carrying a cpu, memory and storage
reservation yields all five labels. -/
theorem C2_created_namespace_labels_witness :
    lookupLabel "tenama/resource-cpu"
      (craftNamespaceLabels (fun _ => "1m0s") 60 "v1.28"
        (some ⟨"1", "2Gi", "5Gi"⟩)) = some "1" ∧
    lookupLabel "tenama/resource-memory"
      (craftNamespaceLabels (fun _ => "1m0s") 60 "v1.28"
        (some ⟨"1", "2Gi", "5Gi"⟩)) = some "2Gi" :=
  ⟨((C2_created_namespace_labels (fun _ => "1m0s") 60 "v1.28"
      (some ⟨"1", "2Gi", "5Gi"⟩)).2.2 ⟨"1", "2Gi", "5Gi"⟩ rfl).1,
    ((C2_created_namespace_labels (fun _ => "1m0s") 60 "v1.28"
      (some ⟨"1", "2Gi", "5Gi"⟩)).2.2 ⟨"1", "2Gi", "5Gi"⟩ rfl).2.1⟩

/-- C3: evaluation of the DeleteNamespace handler at a name that does not
start with the configured prefix. The claim and the spec say the request
is rejected as NotFound-equivalent with 404 and no cluster-side delete is
issued; the code instead writes a 400 response and, missing a return
statement, issues the cluster-side delete anyway (second component true)
and finally writes a 200 response. The first-written response has status
400, not 404. -/
theorem C3_delete_nonprefixed_eval :
    DeleteNamespaceHandler "tenama" "foobar" true =
      ([⟨400, "Namespace does not start with prefix tenama"⟩,
        ⟨200, "Namespace successfully deleted"⟩], true) ∧
    (DeleteNamespaceHandler "tenama" "foobar" true).2 = true := by
  refine ⟨by decide, by decide⟩

/-- C5: evaluation of the name canonicalizer at an input containing a
space. The claim and the spec say every code point outside the class of
minus, lowercase letters and digits is replaced with a minus and the
result matches the RFC 1123 label shape; the code instead inserts a minus
in front of each non-matching rune and keeps the rune (its own log
message says instead of this character), so the space survives and the
result fails the RFC 1123 check. The literal raw-string regex also treats
digits as invalid, inserting a minus before each digit. -/
theorem C5_canonicalizer_eval :
    validateAndTransformToK8sName "tenama-my team-" '-' =
      Except.ok "tenama-my- team" ∧
    matchesRFC1123Label "tenama-my- team" = false ∧
    validateAndTransformToK8sName "tenama-abc1-" '-' =
      Except.ok "tenama-abc-1" := by
  refine ⟨rfl, by decide, rfl⟩

/-- C4 counterexample: processing two add operations for the same name,
each carrying one unit of cpu, leaves the per-namespace map with a single
entry of one unit but an aggregate of two units, so the aggregate is not
the componentwise sum of the per-namespace vectors and adding an
already-tracked name does not behave as an update. -/
theorem C4_counterexample :
    consistentB (runTrackOps Tracker.empty
      [TrackOp.addNs "n" ⟨some 1, none, none⟩,
       TrackOp.addNs "n" ⟨some 1, none, none⟩]) = false ∧
    (runTrackOps Tracker.empty
      [TrackOp.addNs "n" ⟨some 1, none, none⟩,
       TrackOp.addNs "n" ⟨some 1, none, none⟩]).currentUsage =
      ⟨some 2, none, none⟩ ∧
    (runTrackOps Tracker.empty
      [TrackOp.addNs "n" ⟨some 1, none, none⟩,
       TrackOp.addNs "n" ⟨some 1, none, none⟩]).nsResources =
      [("n", ⟨some 1, none, none⟩)] := by
  refine ⟨by decide, by decide, by decide⟩

/-- C4 (amended): account consistency, aggregate equal to the
componentwise sum of the per-namespace vectors, holds in every state
reached from the empty account by a sequence of add, update and remove
operations with nonnegative vectors in which no add targets a name that
is already tracked at that point; an add for an already-tracked name
replaces the per-namespace vector but adds the new vector into the
aggregate without subtracting the old one, so it does not behave as an
update. -/
theorem C4_account_consistency_amended (ops : List TrackOp)
    (h1 : opsNonneg ops = true) (h2 : freshAdds Tracker.empty ops = true) :
    consistentB (runTrackOps Tracker.empty ops) = true :=
  (consistentB_eq_true_iff _).mpr
    (run_preserves_consistent ops Tracker.empty h1 h2 TrackerWF_empty
      Consistent_empty).2

/-- C4 witness: a run with distinct adds, an update and two removes keeps
the account consistent. -/
theorem C4_account_consistency_amended_witness :
    opsNonneg
      [TrackOp.addNs "a" ⟨some 2, some 3, none⟩,
       TrackOp.addNs "b" ⟨some 1, none, some 4⟩,
       TrackOp.updateNs "a" ⟨some 5, none, none⟩,
       TrackOp.removeNs "b", TrackOp.removeNs "b"] = true ∧
    consistentB (runTrackOps Tracker.empty
      [TrackOp.addNs "a" ⟨some 2, some 3, none⟩,
       TrackOp.addNs "b" ⟨some 1, none, some 4⟩,
       TrackOp.updateNs "a" ⟨some 5, none, none⟩,
       TrackOp.removeNs "b", TrackOp.removeNs "b"]) = true :=
  ⟨by decide,
    C4_account_consistency_amended
      [TrackOp.addNs "a" ⟨some 2, some 3, none⟩,
       TrackOp.addNs "b" ⟨some 1, none, some 4⟩,
       TrackOp.updateNs "a" ⟨some 5, none, none⟩,
       TrackOp.removeNs "b", TrackOp.removeNs "b"]
      (by decide) (by decide)⟩

/-- C6: after any sequence of add, update and remove operations with
nonnegative vectors, starting from the empty account, every component of
the aggregate usage is nonnegative; moreover, in the remove path, a
subtraction that would drive a present component negative deletes that
component (the warn-and-zero branch of removeFromResourceTracking). The
subtraction path of updateResourceTracking carries no such check, but it
can never drive a component negative in a reachable state, the first
conjunct covering every reachable state. -/
theorem C6_no_negative_aggregate (ops : List TrackOp)
    (h : opsNonneg ops = true) :
    (∀ k, 0 ≤
      optVal ((runTrackOps Tracker.empty ops).currentUsage.getK k)) ∧
    (∀ y x : Int, y - x < 0 → subCompClamp (some y) (some x) = none) := by
  have hrun := run_preserves_wf_dom ops Tracker.empty h TrackerWF_empty
    DominatesSum_empty
  constructor
  · intro k
    have h1 := hrun.2 k
    have h2 := sumVal_nonneg hrun.1.2 k
    omega
  · intro y x hyx
    simp [subCompClamp, hyx]

/-- C6 witness: the aggregate cpu component stays nonnegative after a
concrete run containing a double remove. -/
theorem C6_no_negative_aggregate_witness :
    opsNonneg
      [TrackOp.addNs "a" ⟨some 2, none, none⟩,
       TrackOp.removeNs "a", TrackOp.removeNs "a",
       TrackOp.updateNs "b" ⟨none, some 7, none⟩] = true ∧
    0 ≤ optVal ((runTrackOps Tracker.empty
      [TrackOp.addNs "a" ⟨some 2, none, none⟩,
       TrackOp.removeNs "a", TrackOp.removeNs "a",
       TrackOp.updateNs "b" ⟨none, some 7, none⟩]).currentUsage.getK
        RKind.cpu) :=
  ⟨by decide,
    (C6_no_negative_aggregate
      [TrackOp.addNs "a" ⟨some 2, none, none⟩,
       TrackOp.removeNs "a", TrackOp.removeNs "a",
       TrackOp.updateNs "b" ⟨none, some 7, none⟩] (by decide)).1 RKind.cpu⟩

/-- A duration parser accepting only the string 5m as three hundred
seconds, used to instantiate theorems whose parser is a parameter. -/
def parseFiveMin : String → Option Int :=
  fun s => if s = "5m" then some 300 else none

/-- A duration parser rejecting every string. -/
def rejectAllDur : String → Option Int := fun _ => none

/-- A quantity parser accepting only the string 1. -/
def parseOneQty : String → Option Int :=
  fun s => if s = "1" then some 1 else none

/-- C8: for every namespace whose duration label parses, when the
expiration instant creation plus duration is at or before now, schedule
issues the deletion immediately and records no timer entry (the timer map
is returned untouched); a timer entry is recorded exactly when the
expiration instant is strictly in the future. -/
theorem C8_expired_namespace_immediate_delete (pd : String → Option Int)
    (now : Int) (timers : TimerMap) (ns : NsObj) (s : String) (d : Int)
    (hlbl : ns.durLabel = some s) (hpd : pd s = some d) :
    (ns.creation + d ≤ now →
      schedule pd now timers ns = (timers, [ns.name])) ∧
    (now < ns.creation + d →
      schedule pd now timers ns =
        (TimerMap.insertT ns.name (ns.creation + d) timers, [])) := by
  have hbind : ns.durLabel.bind pd = some d := by
    rw [hlbl]
    exact hpd
  constructor
  · intro hle
    simp only [schedule, hbind]
    rw [if_pos (by omega)]
  · intro hlt
    simp only [schedule, hbind]
    rw [if_neg (by omega)]

/-- C8 witness: a namespace created at instant 100 with a five-minute
duration observed at instant 1000 is deleted at once with no timer entry
recorded. -/
theorem C8_expired_namespace_immediate_delete_witness :
    (⟨"tenama-a", some "5m", none, none, none, 100⟩ : NsObj).durLabel =
      some "5m" ∧
    parseFiveMin "5m" = some 300 ∧
    schedule parseFiveMin 1000 []
      ⟨"tenama-a", some "5m", none, none, none, 100⟩ = ([], ["tenama-a"]) :=
  ⟨rfl, rfl,
    (C8_expired_namespace_immediate_delete parseFiveMin 1000 []
      ⟨"tenama-a", some "5m", none, none, none, 100⟩ "5m" 300 rfl rfl).1
      (by decide)⟩

/-- C9 counterexample: an Added event for a processed namespace whose
duration label does not parse still mutates the resource accounting: the
aggregate gains the cpu unit carried by the resource label, although the
claim says the watcher state is left unchanged for that namespace. -/
theorem C9_counterexample :
    rejectAllDur "bogus" = none ∧
    (handleEvent rejectAllDur parseOneQty "tenama-" 0 ⟨[], Tracker.empty⟩
      (WatchEvent.added
        ⟨"tenama-x", some "bogus", some "1", none, none, 0⟩)).1.tracker.currentUsage =
      ⟨some 1, none, none⟩ ∧
    Tracker.empty.currentUsage = ⟨none, none, none⟩ := by
  refine ⟨rfl, by decide, rfl⟩

/-- C9 (amended): for every namespace event that passes shouldProcess but
whose duration label fails to parse, no timer is scheduled and no
deletion is issued, yet the resource accounting is still modified: the
Added handler calls addToResourceTracking and the Modified handler calls
updateResourceTracking regardless of the parse failure. -/
theorem C9_duration_parse_failure_amended (pd pq : String → Option Int)
    (pfx : String) (now : Int) (st : WatcherState) (ns : NsObj) (s : String)
    (hsp : shouldProcess pfx ns = true) (hlbl : ns.durLabel = some s)
    (hpd : pd s = none) :
    handleEvent pd pq pfx now st (WatchEvent.added ns) =
      (⟨st.timers, addToResourceTracking st.tracker ns.name
        (extractNamespaceResources pq ns)⟩, []) ∧
    handleEvent pd pq pfx now st (WatchEvent.modified ns) =
      (⟨st.timers, updateResourceTracking st.tracker ns.name
        (extractNamespaceResources pq ns)⟩, []) := by
  have hbind : ns.durLabel.bind pd = none := by
    rw [hlbl]
    exact hpd
  have hsch : schedule pd now st.timers ns = (st.timers, []) := by
    simp [schedule, hbind]
  constructor
  · simp [handleEvent, hsp, hsch]
  · simp [handleEvent, hsp, hsch]

/-- C9 witness: the amended behaviour at a concrete namespace whose
duration label is unparseable and whose cpu label parses to one unit. -/
theorem C9_duration_parse_failure_amended_witness :
    shouldProcess "tenama-"
      ⟨"tenama-x", some "bogus", some "1", none, none, 0⟩ = true ∧
    handleEvent rejectAllDur parseOneQty "tenama-" 0 ⟨[], Tracker.empty⟩
      (WatchEvent.added ⟨"tenama-x", some "bogus", some "1", none, none, 0⟩) =
      (⟨[], addToResourceTracking Tracker.empty "tenama-x"
        (extractNamespaceResources parseOneQty
          ⟨"tenama-x", some "bogus", some "1", none, none, 0⟩)⟩, []) :=
  ⟨by decide,
    (C9_duration_parse_failure_amended rejectAllDur parseOneQty "tenama-" 0
      ⟨[], Tracker.empty⟩ ⟨"tenama-x", some "bogus", some "1", none, none, 0⟩
      "bogus" (by decide) rfl rfl).1⟩

/-- C10: when a scheduled expiration timer fires, the callback removes the
timer entry unconditionally after the cluster-side delete call, whatever
that call returned, so the result is independent of the delete outcome,
the entry is gone, the active timer count decreases by exactly one, and
the delete is issued exactly once with no retry left behind. -/
theorem C10_timer_entry_removed_on_fire (timers : TimerMap) (name : String)
    (ok1 ok2 : Bool) (hnd : keysNodup timers)
    (hmem : (TimerMap.lookupT name timers).isSome = true) :
    fireTimerCallback timers name ok1 = fireTimerCallback timers name ok2 ∧
    TimerMap.lookupT name (fireTimerCallback timers name ok1).1 = none ∧
    (fireTimerCallback timers name ok1).1.length + 1 = timers.length ∧
    (fireTimerCallback timers name ok1).2 = [name] := by
  refine ⟨rfl, ?_, ?_, rfl⟩
  · show TimerMap.lookupT name (TimerMap.eraseT name timers) = none
    unfold TimerMap.lookupT TimerMap.eraseT
    have hnone : List.find? (fun p => decide (p.1 = name))
        (List.filter (fun p => decide (p.1 ≠ name)) timers) = none := by
      rw [List.find?_eq_none]
      intro q hq
      have hne := List.of_mem_filter hq
      simp only [decide_eq_true_eq] at hne ⊢
      exact hne
    rw [hnone]
    rfl
  · show (TimerMap.eraseT name timers).length + 1 = timers.length
    obtain ⟨pr, hfind⟩ : ∃ pr, List.find? (fun p => decide (p.1 = name))
        timers = some pr := by
      unfold TimerMap.lookupT at hmem
      cases hf : List.find? (fun p => decide (p.1 = name)) timers with
      | none =>
        rw [hf] at hmem
        simp at hmem
      | some pr => exact ⟨pr, rfl⟩
    exact length_filter_of_find? hnd hfind

/-- C10 witness: firing the timer of a tracked name on a two-entry index
leaves one entry, independently of the delete outcome. -/
theorem C10_timer_entry_removed_on_fire_witness :
    keysNodup ([("a", 5), ("b", 7)] : TimerMap) ∧
    (TimerMap.lookupT "a" [("a", 5), ("b", 7)]).isSome = true ∧
    (fireTimerCallback [("a", 5), ("b", 7)] "a" false).1.length + 1 = 2 :=
  ⟨by decide, by decide,
    (C10_timer_entry_removed_on_fire [("a", 5), ("b", 7)] "a" false true
      (by decide) (by decide)).2.2.1⟩
